import Mathlib

/-!
Shallow embedding of `extensions/vscode/src/autocomplete/lsp.ts` (the
definition-crawling and result-caching engine of the autocomplete context
provider) and proofs about its specified properties.

Modelling conventions:
* JavaScript strings are Lean `String`s (the inputs considered are ASCII, where
  UTF-16 code-unit indexing and Lean character indexing coincide).
* JavaScript numbers that are used as non-negative indices are `Nat`; values
  that can go negative (the `firstN` cap, `lastIndexOf` results) are `Int`.
* `async` functions are sequentialized: each `await Promise.all(xs.map f)` is
  modelled as a left-to-right fold (the claims under study do not concern
  interleavings).
* External collaborators (tree-sitter parse, the VS Code lookup / hover
  commands, file reads) are oracle functions carried in an environment record.
  A call that can reject is an `Except Unit` value.
* A thrown JavaScript exception that the embedded code does not catch is
  `Option.none` / `Except.error ()` at the corresponding boundary.
* `console.log` / `console.warn` calls are no-ops, except that the
  "Getting definition for <text>" log line and the actual external service
  invocation inside `executeGotoProvider` are recorded in ghost log fields
  (`textLookups`, `externalCalls`) so that theorems can count lookups.
-/

namespace ContinueLsp

/-- Tree-sitter point: zero-indexed row and column of a syntax node. -/
structure TSPoint where
  row : Nat
  column : Nat
deriving DecidableEq, Repr

/-- VS Code style position, as used by `vscode.Position` and the `Range`
data model (line, character). -/
structure Pos where
  line : Nat
  character : Nat
deriving DecidableEq, Repr

/-- A half-open range with a start and an end position. The source field
`end` is a Lean keyword, so it is called `stop` here. -/
structure Range where
  start : Pos
  stop : Pos
deriving DecidableEq, Repr

instance : Inhabited Range := ⟨⟨⟨0, 0⟩, ⟨0, 0⟩⟩⟩

/-- A file identifier plus a range inside it (`RangeInFile` from `core`). -/
structure RangeInFile where
  filepath : String
  range : Range
deriving DecidableEq, Repr

/-- A `RangeInFile` together with the resolved text of the range
(`RangeInFileWithContents` from `core/commands/util`). -/
structure RangeInFileWithContents where
  filepath : String
  range : Range
  contents : String
deriving DecidableEq, Repr

/-- The union type `RangeInFile | RangeInFileWithContents` taken by
`crawlTypes`: the `contents` field is present or absent. `isRifWithContents`
from the source is `contents.isSome`. -/
structure RangeInFileMaybeContents where
  filepath : String
  range : Range
  contents : Option String
deriving DecidableEq, Repr

/-- View a crawl result with contents as a seed for the recursive call. -/
def toMaybeContents (r : RangeInFileWithContents) : RangeInFileMaybeContents :=
  { filepath := r.filepath, range := r.range, contents := some r.contents }

/-- Input of `executeGotoProvider`: uri, line, character and the goto provider
command name (`GotoProviderName` is a union of five string literals, modelled
as a plain string). -/
structure GotoInput where
  uri : String
  line : Nat
  character : Nat
  name : String
deriving DecidableEq, Repr

/-- String interpolation of `input.uri.toString`. In the source the method is
not invoked (the parentheses are missing), so the template literal stringifies
the `String.prototype.toString` function object itself, which yields its
source text: one constant string, independent of `input.uri`. -/
def jsFunctionToStringText : String :=
  "function toString() \x7b [native code] \x7d"

/-- Embedding of `gotoInputKey`. The source interpolates, in order:
`input.name`, `input.uri.toString`, `input.line`, `input.character` —
where `input.uri.toString` is an uncalled method reference (see
`jsFunctionToStringText`), so the uri does not contribute to the key. -/
def gotoInputKey (input : GotoInput) : String :=
  input.name ++ jsFunctionToStringText ++ toString input.line ++ toString input.character

/-- Capacity of the goto cache (`MAX_CACHE_SIZE`). -/
def MAX_CACHE_SIZE : Nat := 50

/-- Raw item of a goto provider response (`Location` or `LocationLink`
shaped): each field may be absent. Uri objects are represented by their
`fsPath` string. -/
structure RawGotoResult where
  targetUri : Option String
  uri : Option String
  targetRange : Option Range
  range : Option Range
deriving DecidableEq, Repr

/-- JavaScript `a || b` on two optional object-valued expressions (an absent
field is `undefined`, a present uri or range object is always truthy). -/
def jsOrO {α : Type} (a b : Option α) : Option α :=
  match a with
  | some x => some x
  | none => b

/-- Filter of the response normalization:
`(d.targetUri || d.uri) && (d.targetRange || d.range)`. -/
def rawKeep (d : RawGotoResult) : Bool :=
  (jsOrO d.targetUri d.uri).isSome && (jsOrO d.targetRange d.range).isSome

/-- Map of the response normalization: prefer the target fields, fall back to
the source fields (`fsPath` of a uri is its string representation here). -/
def rawToRif (d : RawGotoResult) : RangeInFile :=
  { filepath := (jsOrO d.targetUri d.uri).getD ""
    range := (jsOrO d.targetRange d.range).getD default }

/-- Normalization of a goto provider response, as done in
`executeGotoProvider`: keep items exposing a file and a range, project each
to a `RangeInFile`. -/
def normalizeResults (ds : List RawGotoResult) : List RangeInFile :=
  (ds.filter rawKeep).map rawToRif

/-- The goto cache, modelled as a JavaScript `Map`: an insertion-ordered
association list whose head is the oldest-inserted entry. -/
abbrev GotoCache := List (String × List RangeInFile)

/-- JavaScript `Map.get`. -/
def mapGet (cache : GotoCache) (k : String) : Option (List RangeInFile) :=
  (cache.find? (fun e => e.1 == k)).map Prod.snd

/-- JavaScript `Map.delete`: removes the entry with the given key (keys are
unique in a `Map`; on the lists built by the embedded code this removes at
most one entry). -/
def mapDelete (cache : GotoCache) (k : String) : GotoCache :=
  cache.filter (fun e => !(e.1 == k))

/-- JavaScript `Map.set`: update in place if the key is present, otherwise
append (insertion order is preserved). -/
def mapSet (cache : GotoCache) (k : String) (v : List RangeInFile) : GotoCache :=
  if cache.any (fun e => e.1 == k) then
    cache.map (fun e => if e.1 == k then (k, v) else e)
  else
    cache ++ [(k, v)]

/-- The eviction step run before an insertion (`executeGotoProvider` lines
"Add to cache"): when the cache is at capacity, delete the entry under the
first key of the map's iteration order, which is the oldest-inserted one. -/
def evictIfFull (cache : GotoCache) : GotoCache :=
  if MAX_CACHE_SIZE ≤ cache.length then
    match cache with
    | [] => []
    | oldest :: rest => mapDelete (oldest :: rest) oldest.1
  else cache

/-- State threaded through `executeGotoProvider`: the process-wide `gotoCache`
plus a ghost log of the external service invocations actually performed
(the `vscode.commands.executeCommand` calls). -/
structure GotoState where
  cache : GotoCache
  externalCalls : List GotoInput
deriving DecidableEq, Repr

/-- Initial state: empty cache, no calls performed. -/
def initGotoState : GotoState := { cache := [], externalCalls := [] }

/-- Embedding of `executeGotoProvider`. `svc` is the external goto provider
service; `Except.error ()` is a rejected command. On a cache hit the cached
sequence is returned unchanged; on a miss the service is called, a rejection
is caught and folded into an empty result (without caching), and a successful
response is normalized, cached (evicting the oldest entry when the cache is
at capacity) and returned. -/
def executeGotoProvider (svc : GotoInput → Except Unit (List RawGotoResult))
    (st : GotoState) (input : GotoInput) : List RangeInFile × GotoState :=
  let cacheKey := gotoInputKey input
  match mapGet st.cache cacheKey with
  | some cached => (cached, st)
  | none =>
    let st1 : GotoState := { st with externalCalls := st.externalCalls ++ [input] }
    match svc input with
    | Except.error _ => ([], st1)
    | Except.ok defs =>
      let results := normalizeResults defs
      (results, { st1 with cache := mapSet (evictIfFull st1.cache) cacheKey results })

/-- Run a sequence of `executeGotoProvider` calls, threading the state. -/
def runGotoSeq (svc : GotoInput → Except Unit (List RawGotoResult))
    (st : GotoState) (inputs : List GotoInput) : GotoState :=
  inputs.foldl (fun s i => (executeGotoProvider svc s i).2) st

/-- Tree-sitter syntax node (`Parser.SyntaxNode`): node kind (`type`), source
text, the kind of its parent node if any (`parent?.type`), start and end
points, and the child nodes. -/
inductive SyntaxNode : Type where
  | mk : (type : String) → (text : String) → (parentType : Option String) →
      (startPosition : TSPoint) → (endPosition : TSPoint) →
      (children : List SyntaxNode) → SyntaxNode

/-- Node kind. -/
def SyntaxNode.type : SyntaxNode → String
  | .mk t _ _ _ _ _ => t

/-- Node source text. -/
def SyntaxNode.text : SyntaxNode → String
  | .mk _ x _ _ _ _ => x

/-- Kind of the parent node (`node.parent?.type`). -/
def SyntaxNode.parentType : SyntaxNode → Option String
  | .mk _ _ p _ _ _ => p

/-- Start point of the node. -/
def SyntaxNode.startPosition : SyntaxNode → TSPoint
  | .mk _ _ _ s _ _ => s

/-- End point of the node. -/
def SyntaxNode.endPosition : SyntaxNode → TSPoint
  | .mk _ _ _ _ e _ => e

/-- Child nodes. -/
def SyntaxNode.children : SyntaxNode → List SyntaxNode
  | .mk _ _ _ _ _ c => c

/-- Truthiness-aware early-exit test of `findChildren`:
`firstN && firstN <= 0` — a cap of exactly 0 is falsy in JavaScript, so it
does NOT trigger the early return. -/
def capStop (firstN : Option Int) : Bool :=
  match firstN with
  | some n => decide (n ≠ 0) && decide (n ≤ 0)
  | none => false

/-- Cap passed to a recursive `findChildren` call:
`firstN ? firstN - matchingNodes.length : undefined` — again, a current cap
of exactly 0 is falsy, so the child is searched with no cap at all. -/
def nextCap (firstN : Option Int) (len : Nat) : Option Int :=
  match firstN with
  | some n => if n ≠ 0 then some (n - (len : Int)) else none
  | none => none

mutual

/-- Embedding of `findChildren`. The predicate returns `Option Bool`: `none`
models a JavaScript exception thrown while evaluating the predicate, which
propagates out of the traversal (`findChildren` itself installs no handler).
A pure predicate always returns `some`. Matches are accumulated in pre-order:
the node itself (when it satisfies the predicate) before the matches found in
its children, children in order. -/
def findChildren (node : SyntaxNode) (p : SyntaxNode → Option Bool)
    (firstN : Option Int) : Option (List SyntaxNode) :=
  if capStop firstN then some []
  else
    match p node with
    | none => none
    | some b =>
      match node with
      | .mk t x pt sp ep c =>
        findChildrenFold c p firstN (if b then [SyntaxNode.mk t x pt sp ep c] else [])

/-- The `for (const child of node.children)` loop of `findChildren`:
`matchingNodes` is the accumulator, and each child is searched with the cap
reduced by the number of matches already accumulated (see `nextCap`). -/
def findChildrenFold (children : List SyntaxNode) (p : SyntaxNode → Option Bool)
    (firstN : Option Int) (acc : List SyntaxNode) : Option (List SyntaxNode) :=
  match children with
  | [] => some acc
  | c :: rest =>
    match findChildren c p (nextCap firstN acc.length) with
    | none => none
    | some ms => findChildrenFold rest p firstN (acc ++ ms)

end

/-- First-character capitalization test
`childNode.text[0].toUpperCase() === childNode.text[0]`. On the empty string
`text[0]` is `undefined` and calling `toUpperCase` on it throws a TypeError,
modelled by `none`. -/
def firstCharUpperEq (s : String) : Option Bool :=
  match s.data with
  | [] => none
  | c :: _ => some (c.toUpper == c)

/-- The type-reference predicate used by `findTypeIdentifiers`: the node kind
is "type_identifier", or the parent is an ERROR node, the kind is
"identifier" and the first character of the text is uppercase. The
disjunction and conjunctions short-circuit exactly as in the source, so the
capitalization test (which can throw, see `firstCharUpperEq`) is only reached
on an identifier under an ERROR parent. -/
def typeRefPred (n : SyntaxNode) : Option Bool :=
  if n.type == "type_identifier" then some true
  else if (["ERROR"].contains (n.parentType.getD "")) && (n.type == "identifier") then
    firstCharUpperEq n.text
  else some false

/-- Embedding of `findTypeIdentifiers`: `findChildren` over the whole subtree
with the type-reference predicate and no cap. -/
def findTypeIdentifiers (node : SyntaxNode) : Option (List SyntaxNode) :=
  findChildren node typeRefPred none

/-- The newline character. -/
def newlineChar : Char := Char.ofNat 10

/-- Length of the JavaScript `s.split("\n")` array: one more than the number
of newline characters in `s` (splitting on a one-character separator). -/
def jsSplitNlCount (s : String) : Nat :=
  (s.data.filter (fun c => c == newlineChar)).length + 1

/-- The whitespace set stripped by JavaScript `String.prototype.trim`:
the ECMAScript WhiteSpace productions (TAB, VT, FF, SP, NBSP, BOM and the
Unicode space separators) and the LineTerminator productions (LF, CR, LS,
PS). Note this includes VT (0x0B) and FF (0x0C). -/
def jsIsWhitespace (c : Char) : Bool :=
  c == Char.ofNat 0x09 || c == Char.ofNat 0x0A || c == Char.ofNat 0x0B ||
  c == Char.ofNat 0x0C || c == Char.ofNat 0x0D || c == Char.ofNat 0x20 ||
  c == Char.ofNat 0xA0 || c == Char.ofNat 0x1680 ||
  (0x2000 ≤ c.toNat && c.toNat ≤ 0x200A) ||
  c == Char.ofNat 0x2028 || c == Char.ofNat 0x2029 || c == Char.ofNat 0x202F ||
  c == Char.ofNat 0x205F || c == Char.ofNat 0x3000 || c == Char.ofNat 0xFEFF

/-- JavaScript `s.trim()`: strip leading and trailing characters of the
`jsIsWhitespace` set. -/
def jsTrim (s : String) : String :=
  String.mk (((s.data.dropWhile jsIsWhitespace).reverse.dropWhile jsIsWhitespace).reverse)

/-- Ordering of positions: line first, then character. -/
def posLt (a b : Pos) : Bool :=
  a.line < b.line || (a.line == b.line && a.character < b.character)

/-- Later of two positions under `posLt`. -/
def posMax (a b : Pos) : Pos := if posLt a b then b else a

/-- Earlier of two positions under `posLt`. -/
def posMin (a b : Pos) : Pos := if posLt a b then a else b

/-- Modelled from the spec: `intersection` from `core/util/ranges` is not in
the sources; per the spec it deduplicates "by non-null range intersection",
with half-open ranges such that ranges 0..10 and 5..15 intersect. The
intersection of two ranges is their overlap when it is non-empty, and null
(`none`) otherwise. -/
def intersection (a b : Range) : Option Range :=
  let s := posMax a.start b.start
  let e := posMin a.stop b.stop
  if posLt s e then some { start := s, stop := e } else none

/-- The duplicate filter of `crawlTypes`: a resolved definition is appended
to the results only if no already-accumulated result has the same file and a
non-null range intersection with it; `none` entries (identifiers whose lookup
produced no definition) are skipped. -/
def dedupeDefinitions (defs : List (Option RangeInFileWithContents))
    (results : List RangeInFileWithContents) : List RangeInFileWithContents :=
  match defs with
  | [] => results
  | none :: rest => dedupeDefinitions rest results
  | some d :: rest =>
    if results.any (fun r => r.filepath == d.filepath && (intersection r.range d.range).isSome) then
      dedupeDefinitions rest results
    else
      dedupeDefinitions rest (results ++ [d])

/-- The `identifierNodes.forEach(node => searchedLabels.add(node.text))` step.
The searched-label `Set` is modelled as an insertion-ordered duplicate-free
list: adding a present text is a no-op, adding a new text appends it. -/
def addLabels (searched : List String) (nodes : List SyntaxNode) : List String :=
  nodes.foldl (fun s n => if s.contains n.text then s else s ++ [n.text]) searched

/-- External collaborators of `crawlTypes` (spec section 6): whole-file read,
tree-sitter parse (returning the root node, `none` on parse failure),
range read, and the goto lookup service consumed by `executeGotoProvider`. -/
structure CrawlEnv where
  readFile : String → String
  getAst : String → String → Option SyntaxNode
  readRangeInFile : String → Range → String
  gotoService : GotoInput → Except Unit (List RawGotoResult)

/-- State shared across the recursive calls of one crawl invocation: the
goto cache state, the mutable results accumulator, the searched-label set,
and a ghost log of the identifier texts for which a definition lookup was
issued (one entry per "Getting definition for" log line of the source). -/
structure CrawlState where
  goto : GotoState
  results : List RangeInFileWithContents
  searchedLabels : List String
  textLookups : List String
deriving DecidableEq, Repr

/-- Fresh crawl state: the default arguments of `crawlTypes` with an empty
process-wide cache. -/
def initCrawlState : CrawlState :=
  { goto := initGotoState, results := [], searchedLabels := [], textLookups := [] }

/-- The per-identifier resolution loop of `crawlTypes` (the sequentialized
`Promise.all` over `identifierNodes`): for each node, log its text, issue a
"definition" lookup at the node position offset by the seed range start and
clamped to the parsed line count, take the first returned location if any,
and read its contents. Returns the definition slots (in node order, `none`
for a lookup with no result) and the updated goto state and text log. -/
def resolveIdentifiers (env : CrawlEnv) (rif : RangeInFileMaybeContents)
    (astLineCount : Nat) (nodes : List SyntaxNode) (gst : GotoState)
    (tlog : List String) :
    List (Option RangeInFileWithContents) × GotoState × List String :=
  match nodes with
  | [] => ([], gst, tlog)
  | n :: rest =>
    let tlog1 := tlog ++ [n.text]
    let input : GotoInput :=
      { uri := rif.filepath
        line := rif.range.start.line + min n.startPosition.row (astLineCount - 1)
        character := rif.range.start.character + n.startPosition.column
        name := "vscode.executeDefinitionProvider" }
    let res := executeGotoProvider env.gotoService gst input
    let d : Option RangeInFileWithContents :=
      match res.1.head? with
      | none => none
      | some typeDef =>
        some { filepath := typeDef.filepath, range := typeDef.range
               contents := env.readRangeInFile typeDef.filepath typeDef.range }
    let rec2 := resolveIdentifiers env rif astLineCount rest res.2 tlog1
    (d :: rec2.1, rec2.2.1, rec2.2.2)

/-- Outcome of the non-recursive part of one `crawlTypes` call. -/
inductive StepOut : Type where
  | fault : StepOut
  | earlyRet : CrawlState → StepOut
  | proceed : CrawlState → StepOut

/-- The seed contents: already attached, or read through the file-read
collaborator (`isRifWithContents(rif) ? rif.contents : await
ide.readFile(rif.filepath)`). -/
def seedContents (env : CrawlEnv) (rif : RangeInFileMaybeContents) : String :=
  match rif.contents with
  | some c => c
  | none => env.readFile rif.filepath

/-- The crawl state after processing one parsed seed whose extracted
identifier list is `nodes`: filter out already-searched texts, add the
surviving texts to the searched-label set, resolve each surviving node, and
deduplicate the resolved definitions into the results accumulator. -/
def crawlStepState (env : CrawlEnv) (rif : RangeInFileMaybeContents)
    (st : CrawlState) (root : SyntaxNode) (nodes : List SyntaxNode) : CrawlState :=
  let astLineCount := jsSplitNlCount root.text
  let identifierNodes := nodes.filter (fun n => !(st.searchedLabels.contains n.text))
  let searched1 := addLabels st.searchedLabels identifierNodes
  let resolved := resolveIdentifiers env rif astLineCount identifierNodes st.goto st.textLookups
  let results1 := dedupeDefinitions resolved.1 st.results
  { goto := resolved.2.1, results := results1,
    searchedLabels := searched1, textLookups := resolved.2.2 }

/-- The body of `crawlTypes` before the recursion (steps 1-6 of the spec's
crawl algorithm): obtain the seed contents, parse (returning the accumulated
results unchanged when the parse fails), extract type identifiers (a thrown
predicate error is `fault`), then process the seed (see `crawlStepState`). -/
def crawlStep (env : CrawlEnv) (rif : RangeInFileMaybeContents)
    (st : CrawlState) : StepOut :=
  match env.getAst rif.filepath (seedContents env rif) with
  | none => .earlyRet st
  | some root =>
    match findTypeIdentifiers root with
    | none => .fault
    | some nodes => .proceed (crawlStepState env rif st root nodes)

/-- The `for (const result of [...results])` recursion loop of `crawlTypes`:
`f` is `crawlTypes` at the decremented depth; the snapshot list is iterated
while the state (including the shared results accumulator) is threaded
through. `none` propagates a fault. -/
def crawlSeeds (f : RangeInFileMaybeContents → CrawlState → Option CrawlState) :
    List RangeInFileWithContents → CrawlState → Option CrawlState
  | [], st => some st
  | s :: rest, st =>
    match f (toMaybeContents s) st with
    | none => none
    | some st1 => crawlSeeds f rest st1

/-- Embedding of `crawlTypes`. The depth budget is a natural number (the
source default is 1); when it is positive the call recurses with depth
decreased by one into a snapshot of the results accumulated so far, and at
depth 0 only the seed itself is processed. `none` is an uncaught exception
escaping the crawl (the predicate TypeError, see `findTypeIdentifiers`). -/
def crawlTypes (env : CrawlEnv) : Nat → RangeInFileMaybeContents → CrawlState → Option CrawlState
  | 0 => fun rif st =>
    (match crawlStep env rif st with
     | .fault => none
     | .earlyRet st1 => some st1
     | .proceed st1 => some st1)
  | depth + 1 => fun rif st =>
    (match crawlStep env rif st with
     | .fault => none
     | .earlyRet st1 => some st1
     | .proceed st1 => crawlSeeds (crawlTypes env depth) st1.results st1)

/-- Content entry of a hover result: either a bare string, or an object
exposing a string `value` field (a `MarkdownString`). The source only
extracts the object shape (`typeof hoverContent === "object" && "value" in
hoverContent`). -/
inductive HoverContent : Type where
  | str : String → HoverContent
  | obj : (value : String) → HoverContent
deriving DecidableEq, Repr

/-- A hover result is its list of content entries; the hover command returns
a list of hover results. -/
abbrev HoverResult := List HoverContent

/-- External collaborators of the orchestrator `getDefinitionsFromLsp`:
tree-sitter parse (returning the root node), the root-to-cursor node path,
and the hover command (which may reject: `Except.error ()`). -/
structure LspEnv where
  getAst : String → String → Option SyntaxNode
  getTreePathAtCursor : SyntaxNode → Nat → Option (List SyntaxNode)
  hover : String → Pos → Except Unit (List HoverResult)

/-- Embedding of `getFunctionInfo`: request a hover at the position; a
rejection of the hover command propagates (there is no try/catch in this
function). If the first hover result's first content entry is an object with
a string value, return it trimmed; otherwise return the empty string. -/
def getFunctionInfo (env : LspEnv) (uri : String) (position : Pos) :
    Except Unit String :=
  match env.hover uri position with
  | Except.error e => Except.error e
  | Except.ok hoverResult =>
    match hoverResult with
    | [] => Except.ok ""
    | contents :: _ =>
      match contents.head? with
      | some (HoverContent.obj v) => Except.ok (jsTrim v)
      | _ => Except.ok ""

/-- JavaScript `Math.abs(a - b)` on two line numbers. -/
def jsAbsSub (a b : Nat) : Nat := ((a : Int) - (b : Int)).natAbs

/-- The `MAX_DISTANCE` threshold of `getDefinitionsForNode`. -/
def MAX_DISTANCE : Nat := 5

/-- Embedding of `getDefinitionsForNode`. For a "call_expression" or "call"
node whose start row is within `MAX_DISTANCE` lines of the cursor, fetch the
hover info at the node start; a non-empty (truthy) hover string yields one
`RangeInFileWithContents` spanning the node. All other node kinds yield
nothing. A hover rejection propagates to the caller (no try/catch here). -/
def getDefinitionsForNode (env : LspEnv) (uri : String) (node : SyntaxNode)
    (cursorPosition : Pos) : Except Unit (List RangeInFileWithContents) :=
  if node.type == "call_expression" || node.type == "call" then
    let nodePosition : Pos :=
      { line := node.startPosition.row, character := node.startPosition.column }
    let distance := jsAbsSub nodePosition.line cursorPosition.line
    if distance ≤ MAX_DISTANCE then
      match getFunctionInfo env uri nodePosition with
      | Except.error e => Except.error e
      | Except.ok hoverInfo =>
        if hoverInfo = "" then Except.ok []
        else
          Except.ok [{ filepath := uri
                       range := { start := { line := node.startPosition.row,
                                             character := node.startPosition.column }
                                  stop := { line := node.endPosition.row,
                                            character := node.endPosition.column } }
                       contents := hoverInfo }]
    else Except.ok []
  else Except.ok []

/-- JavaScript `text.slice(0, n)` (on the ASCII inputs considered,
code-unit indices and character indices coincide). -/
def jsSlice (s : String) (n : Nat) : String := String.mk (s.data.take n)

/-- JavaScript `s.lastIndexOf("\n", fromIndex)`: the largest index of a
newline at position at most `max fromIndex 0`, or -1 when there is none
(a negative `fromIndex` is clamped to 0 by `lastIndexOf`). -/
def jsLastIndexOfNl (s : String) (fromIndex : Int) : Int :=
  let limit : Nat := if fromIndex < 0 then 0 else fromIndex.toNat
  let hits := (List.range s.data.length).filter
    (fun i => i ≤ limit && s.data.get? i == some newlineChar)
  match hits.getLast? with
  | some i => (i : Int)
  | none => -1

/-- Cursor position computation of `getDefinitionsFromLsp`: the line is the
newline count of the prefix before the cursor, the character is the offset
from the previous newline. The source constructs a `vscode.Position`, whose
constructor throws on a negative coordinate; the character is negative
exactly when the cursor is at offset 0 and the text starts with a newline
(`lastIndexOf` clamps its -1 from-index to 0 and finds that newline), and
that throw is modelled by `none`. -/
def cursorPosOf (text : String) (cursorIndex : Nat) : Option Pos :=
  let line := jsSplitNlCount (jsSlice text cursorIndex) - 1
  let character : Int :=
    (cursorIndex : Int) - jsLastIndexOfNl text ((cursorIndex : Int) - 1) - 1
  if character < 0 then none
  else some { line := line, character := character.toNat }

/-- The node-path loop of `getDefinitionsFromLsp`: process the nodes in
order (the caller passes the reversed tree path), concatenating the
definitions of each; the first rejection aborts the loop and propagates. -/
def processNodes (env : LspEnv) (uri : String) :
    List SyntaxNode → Pos → Except Unit (List RangeInFileWithContents)
  | [], _ => Except.ok []
  | n :: rest, cursorPosition =>
    match getDefinitionsForNode env uri n cursorPosition with
    | Except.error e => Except.error e
    | Except.ok ds =>
      match processNodes env uri rest cursorPosition with
      | Except.error e => Except.error e
      | Except.ok later => Except.ok (ds ++ later)

/-- A located content plus the fixed relevance score
(`AutocompleteSnippet`); the score is a rational (JavaScript numbers never
leave the literal 0.8 in this subsystem). -/
structure AutocompleteSnippet where
  filepath : String
  range : Range
  contents : String
  score : Rat
deriving DecidableEq, Repr

/-- Body of `getDefinitionsFromLsp` inside its try block: parse, compute the
tree path and the cursor position (whose `vscode.Position` construction can
throw, see `cursorPosOf`), walk the path innermost-first
(`treePath.reverse()`), and score every accumulated result with 0.8. A
rejection anywhere inside (the position constructor or the hover command) is
`error`. -/
def getDefinitionsFromLspInner (env : LspEnv) (filepath : String)
    (contents : String) (cursorIndex : Nat) :
    Except Unit (List AutocompleteSnippet) :=
  match env.getAst filepath contents with
  | none => Except.ok []
  | some ast =>
    match env.getTreePathAtCursor ast cursorIndex with
    | none => Except.ok []
    | some treePath =>
      match cursorPosOf ast.text cursorIndex with
      | none => Except.error ()
      | some cursorPosition =>
        match processNodes env filepath treePath.reverse cursorPosition with
        | Except.error e => Except.error e
        | Except.ok results =>
          Except.ok (results.map (fun r =>
            { filepath := r.filepath, range := r.range, contents := r.contents
              score := (0.8 : Rat) }))

/-- Embedding of the public entry point `getDefinitionsFromLsp`: the
top-level try/catch folds any internal rejection into an empty list, so no
error crosses this boundary. -/
def getDefinitionsFromLsp (env : LspEnv) (filepath : String)
    (contents : String) (cursorIndex : Nat) : List AutocompleteSnippet :=
  match getDefinitionsFromLspInner env filepath contents cursorIndex with
  | Except.ok results => results
  | Except.error _ => []

/-! Helper lemmas about the cache map operations. -/

/-- Keys of the cache, in insertion order. -/
def cacheKeys (c : GotoCache) : List String := c.map Prod.fst

/-- Well-formedness of a JavaScript `Map` model: keys are pairwise distinct. -/
def keysNodup (c : GotoCache) : Prop := (cacheKeys c).Nodup

/-- Invariant maintained by the goto cache: bounded size and distinct keys. -/
def cacheOk (c : GotoCache) : Prop := c.length ≤ MAX_CACHE_SIZE ∧ keysNodup c

/-! Concrete inputs and auxiliary predicates used by the theorems below. -/

/-- A lookup request for file a.ts. -/
def c1InputA : GotoInput :=
  { uri := "file:///a.ts", line := 4, character := 7,
    name := "vscode.executeDefinitionProvider" }

/-- The same lookup request, but for file b.ts. -/
def c1InputB : GotoInput :=
  { uri := "file:///b.ts", line := 4, character := 7,
    name := "vscode.executeDefinitionProvider" }

/-- An external service answering every lookup with one definition located in
the requested file itself (so responses for different files differ). -/
def svcByUri : GotoInput → Except Unit (List RawGotoResult) :=
  fun i => Except.ok
    [{ targetUri := some i.uri, uri := none, targetRange := some default, range := none }]

/-- The cache state after resolving the a.ts request from a fresh state. -/
def c1StateAfterA : GotoState :=
  (executeGotoProvider svcByUri initGotoState c1InputA).2

/-- An external service that always answers with an empty definition list. -/
def svcEmpty : GotoInput → Except Unit (List RawGotoResult) :=
  fun _ => Except.ok []

/-- A lookup request used to exercise the cache at capacity. -/
def c2Input : GotoInput :=
  { uri := "file:///w.ts", line := 1, character := 2,
    name := "vscode.executeDefinitionProvider" }

/-- A goto state whose cache already holds `MAX_CACHE_SIZE` entries with
pairwise distinct keys. -/
def c2FullState : GotoState :=
  { cache := (List.range MAX_CACHE_SIZE).map (fun n => (toString n, [])),
    externalCalls := [] }

/-- Pairwise absence of same-file overlapping ranges in a result list (the
deduplication invariant of a crawl's result set). -/
def resultsOkB : List RangeInFileWithContents → Bool
  | [] => true
  | r :: rest =>
    rest.all (fun d => !(r.filepath == d.filepath && (intersection r.range d.range).isSome)) &&
    resultsOkB rest

/-- Relation between a crawl state and any state reachable from it by crawl
processing: the searched-label set only grows (by new labels), the logged
lookups of an already-searched text do not increase, and the deduplication
invariant of the result set is preserved. -/
def StInv (st st2 : CrawlState) : Prop :=
  (st.searchedLabels <+: st2.searchedLabels) ∧
  (st.searchedLabels.Nodup → st2.searchedLabels.Nodup) ∧
  (∀ t, t ∈ st.searchedLabels → st2.textLookups.count t = st.textLookups.count t) ∧
  (resultsOkB st.results = true → resultsOkB st2.results = true)

/-- A type identifier node with text Foo at row 0. -/
def fooNode1 : SyntaxNode :=
  .mk "type_identifier" "Foo" (some "program") ⟨0, 0⟩ ⟨0, 3⟩ []

/-- A second type identifier node with the same text Foo at row 1. -/
def fooNode2 : SyntaxNode :=
  .mk "type_identifier" "Foo" (some "program") ⟨1, 0⟩ ⟨1, 3⟩ []

/-- A parsed seed containing the identifier text Foo twice. -/
def progRoot : SyntaxNode :=
  .mk "program" "Foo\nFoo" none ⟨0, 0⟩ ⟨1, 3⟩ [fooNode1, fooNode2]

/-- Crawl environment whose parser yields `progRoot` and whose lookup service
always answers successfully with no definitions. -/
def envDoubleFoo : CrawlEnv :=
  { readFile := fun _ => ""
    getAst := fun _ _ => some progRoot
    readRangeInFile := fun _ _ => ""
    gotoService := fun _ => Except.ok [] }

/-- The seed for `envDoubleFoo`, with contents attached. -/
def rifDoubleFoo : RangeInFileMaybeContents :=
  { filepath := "a.ts", range := default, contents := some "Foo\nFoo" }

/-- A parsed seed with no identifiers at all. -/
def leafRoot : SyntaxNode := .mk "program" "x" none ⟨0, 0⟩ ⟨0, 1⟩ []

/-- Crawl environment whose parser yields the identifier-free `leafRoot`. -/
def envLeaf : CrawlEnv :=
  { readFile := fun _ => ""
    getAst := fun _ _ => some leafRoot
    readRangeInFile := fun _ _ => ""
    gotoService := fun _ => Except.ok [] }

/-- The seed for `envLeaf`. -/
def rifLeaf : RangeInFileMaybeContents :=
  { filepath := "seed.ts", range := default, contents := some "x" }

/-- A crawl state whose searched-label set already holds Foo. -/
def c3SeedState : CrawlState :=
  { goto := initGotoState, results := [], searchedLabels := ["Foo"], textLookups := [] }

/-- A crawl result covering characters 0 to 10 of line 0 of file dup.ts. -/
def overlapA : RangeInFileWithContents :=
  { filepath := "dup.ts", range := { start := ⟨0, 0⟩, stop := ⟨0, 10⟩ }, contents := "a" }

/-- A candidate covering characters 5 to 15 of the same line of the same
file: its range intersects `overlapA`. -/
def overlapB : RangeInFileWithContents :=
  { filepath := "dup.ts", range := { start := ⟨0, 5⟩, stop := ⟨0, 15⟩ }, contents := "b" }

/-- A child node matching the predicate used in the C4 evidence. -/
def capChild : SyntaxNode := .mk "m" "c" none ⟨1, 0⟩ ⟨1, 1⟩ []

/-- A root node matching the predicate, with one matching child. -/
def capRoot : SyntaxNode := .mk "m" "r" none ⟨0, 0⟩ ⟨1, 1⟩ [capChild]

/-- A call-expression node at the given row. -/
def mkCallNode (r : Nat) : SyntaxNode := .mk "call_expression" "f()" none ⟨r, 0⟩ ⟨r, 3⟩ []

/-- Orchestrator environment with a three-node tree path of call expressions
at rows 0, 1 and 2; the hover service rejects exactly at the given line (if
any) and otherwise returns a signature string. -/
def hoverEnvWith (failLine : Option Nat) : LspEnv :=
  { getAst := fun _ c => some (.mk "program" c none ⟨0, 0⟩ ⟨2, 1⟩ [])
    getTreePathAtCursor := fun _ _ => some [mkCallNode 0, mkCallNode 1, mkCallNode 2]
    hover := fun _ p =>
      if failLine == some p.line then Except.error ()
      else Except.ok [[HoverContent.obj " sig "]] }

/-- A goto service that always rejects. -/
def svcFail : GotoInput → Except Unit (List RawGotoResult) := fun _ => Except.error ()

/-- A call-expression node 3 rows down, as in the spec's scenario. -/
def nearCallNode : SyntaxNode := .mk "call_expression" "foo(x)" none ⟨3, 0⟩ ⟨3, 6⟩ []

/-- A call-expression node 10 rows down, beyond the 5-line threshold. -/
def farCallNode : SyntaxNode := .mk "call_expression" "foo(x)" none ⟨10, 0⟩ ⟨10, 6⟩ []

/-- Orchestrator environment whose tree path is the single given node and
whose hover service returns the spec scenario's signature string. -/
def hoverEnvSingle (node : SyntaxNode) (v : String) : LspEnv :=
  { getAst := fun _ c => some (.mk "program" c none ⟨0, 0⟩ ⟨0, 1⟩ [])
    getTreePathAtCursor := fun _ _ => some [node]
    hover := fun _ _ => Except.ok [[HoverContent.obj v]] }

/-- An identifier node with empty text under a parse-error parent. -/
def emptyIdNode : SyntaxNode := .mk "identifier" "" (some "ERROR") ⟨0, 0⟩ ⟨0, 0⟩ []

/-- An ERROR tree containing `emptyIdNode`. -/
def errTree : SyntaxNode := .mk "ERROR" "" none ⟨0, 0⟩ ⟨0, 0⟩ [emptyIdNode]

/-! Theorems: helper lemmas followed by the per-claim evidence. -/

theorem mapGet_eq_none_iff {c : GotoCache} {k : String} :
    mapGet c k = none ↔ ∀ e ∈ c, ¬ (e.1 = k) := by
  simp [mapGet, List.find?_eq_none]

theorem mapSet_fresh {c : GotoCache} {k : String} (v : List RangeInFile)
    (h : ∀ e ∈ c, ¬ (e.1 = k)) : mapSet c k v = c ++ [(k, v)] := by
  have hany : c.any (fun e => e.1 == k) = false := by
    simp only [List.any_eq_false]
    intro e he
    simpa using h e he
  simp [mapSet, hany]

theorem mapDelete_cons_self {e : String × List RangeInFile}
    {t : GotoCache} (h : keysNodup (e :: t)) : mapDelete (e :: t) e.1 = t := by
  have hmem : e.1 ∉ t.map Prod.fst := by
    have := h
    simp only [keysNodup, cacheKeys, List.map_cons, List.nodup_cons] at this
    exact this.1
  have ht : ∀ x ∈ t, ¬ (x.1 = e.1) := by
    intro x hx hxk
    exact hmem (hxk ▸ List.mem_map_of_mem Prod.fst hx)
  simp only [mapDelete, List.filter]
  simp only [beq_self_eq_true, Bool.not_true]
  exact List.filter_eq_self.mpr (by intro x hx; simpa using ht x hx)

theorem mapGet_filter_none {c : GotoCache} {k : String}
    (p : String × List RangeInFile → Bool) (h : mapGet c k = none) :
    mapGet (c.filter p) k = none := by
  rw [mapGet_eq_none_iff] at h ⊢
  intro e he
  exact h e (List.mem_of_mem_filter he)

theorem mapGet_evictIfFull_none {c : GotoCache} {k : String}
    (h : mapGet c k = none) : mapGet (evictIfFull c) k = none := by
  unfold evictIfFull
  split
  · cases c with
    | nil => simpa using h
    | cons e t => exact mapGet_filter_none _ h
  · exact h

theorem mapGet_append_fresh {c : GotoCache} {k : String} (v : List RangeInFile)
    (h : mapGet c k = none) : mapGet (c ++ [(k, v)]) k = some v := by
  rw [mapGet_eq_none_iff] at h
  induction c with
  | nil => simp [mapGet, List.find?]
  | cons e t ih =>
    have hek : (e.1 == k) = false := by
      simpa using h e (by simp)
    simp only [List.cons_append, mapGet, List.find?, hek]
    exact ih (by intro x hx; exact h x (by simp [hx]))

theorem executeGotoProvider_hit (svc : GotoInput → Except Unit (List RawGotoResult))
    {st : GotoState} {i : GotoInput} {v : List RangeInFile}
    (hm : mapGet st.cache (gotoInputKey i) = some v) :
    executeGotoProvider svc st i = (v, st) := by
  simp [executeGotoProvider, hm]

theorem executeGotoProvider_miss_error {svc : GotoInput → Except Unit (List RawGotoResult)}
    {st : GotoState} {i : GotoInput}
    (hm : mapGet st.cache (gotoInputKey i) = none)
    (hs : svc i = Except.error ()) :
    executeGotoProvider svc st i =
      ([], { st with externalCalls := st.externalCalls ++ [i] }) := by
  simp [executeGotoProvider, hm, hs]

theorem executeGotoProvider_miss_ok {svc : GotoInput → Except Unit (List RawGotoResult)}
    {st : GotoState} {i : GotoInput} {raws : List RawGotoResult}
    (hm : mapGet st.cache (gotoInputKey i) = none)
    (hs : svc i = Except.ok raws) :
    executeGotoProvider svc st i =
      (normalizeResults raws,
       { cache := mapSet (evictIfFull st.cache) (gotoInputKey i) (normalizeResults raws)
         externalCalls := st.externalCalls ++ [i] }) := by
  simp [executeGotoProvider, hm, hs]

theorem keysNodup_filter {c : GotoCache} (p : String × List RangeInFile → Bool)
    (h : keysNodup c) : keysNodup (c.filter p) :=
  List.Sublist.nodup (List.Sublist.map Prod.fst (List.filter_sublist c)) h

theorem keysNodup_append_fresh {c : GotoCache} {k : String} (v : List RangeInFile)
    (h : keysNodup c) (hk : ∀ e ∈ c, ¬ (e.1 = k)) : keysNodup (c ++ [(k, v)]) := by
  simp only [keysNodup, cacheKeys, List.map_append, List.map_cons, List.map_nil]
  rw [List.nodup_append]
  refine ⟨h, List.nodup_singleton k, ?_⟩
  intro a ha hb
  simp only [List.mem_singleton] at hb
  obtain ⟨e, he, rfl⟩ := List.mem_map.mp ha
  exact hk e he hb

theorem evictIfFull_cacheOk {c : GotoCache} (h : cacheOk c) :
    (evictIfFull c).length + 1 ≤ MAX_CACHE_SIZE ∧ keysNodup (evictIfFull c) := by
  obtain ⟨hlen, hnd⟩ := h
  unfold evictIfFull
  split
  · cases c with
    | nil => simp_all [MAX_CACHE_SIZE]
    | cons e t =>
      show (mapDelete (e :: t) e.1).length + 1 ≤ MAX_CACHE_SIZE ∧
        keysNodup (mapDelete (e :: t) e.1)
      rw [mapDelete_cons_self hnd]
      constructor
      · simpa using hlen
      · simp only [keysNodup, cacheKeys, List.map_cons, List.nodup_cons] at hnd
        exact hnd.2
  · next hfull =>
    exact ⟨Nat.succ_le_of_lt (Nat.lt_of_not_le hfull), hnd⟩

theorem mapGet_none_of_sublist {c d : GotoCache} {k : String}
    (hsub : List.Sublist d c) (h : mapGet c k = none) : mapGet d k = none := by
  rw [mapGet_eq_none_iff] at h ⊢
  intro e he
  exact h e (hsub.subset he)

theorem evictIfFull_sublist (c : GotoCache) : List.Sublist (evictIfFull c) c := by
  unfold evictIfFull
  split
  · cases c with
    | nil => exact List.Sublist.refl []
    | cons e t => exact List.filter_sublist _
  · exact List.Sublist.refl c

theorem executeGotoProvider_cacheOk (svc : GotoInput → Except Unit (List RawGotoResult))
    (st : GotoState) (i : GotoInput) (h : cacheOk st.cache) :
    cacheOk ((executeGotoProvider svc st i).2.cache) := by
  cases hm : mapGet st.cache (gotoInputKey i) with
  | some v => rw [executeGotoProvider_hit svc hm]; exact h
  | none =>
    cases hs : svc i with
    | error e => cases e; rw [executeGotoProvider_miss_error hm hs]; exact h
    | ok raws =>
      rw [executeGotoProvider_miss_ok hm hs]
      have hfresh : ∀ e ∈ evictIfFull st.cache, ¬ (e.1 = gotoInputKey i) :=
        mapGet_eq_none_iff.mp (mapGet_none_of_sublist (evictIfFull_sublist st.cache) hm)
      rw [mapSet_fresh _ hfresh]
      obtain ⟨hlen1, hnd1⟩ := evictIfFull_cacheOk h
      constructor
      · simpa using hlen1
      · exact keysNodup_append_fresh _ hnd1 hfresh

theorem runGotoSeq_cacheOk (svc : GotoInput → Except Unit (List RawGotoResult))
    (inputs : List GotoInput) (st : GotoState) (h : cacheOk st.cache) :
    cacheOk ((runGotoSeq svc st inputs).cache) := by
  induction inputs generalizing st with
  | nil => exact h
  | cons i rest ih =>
    exact ih _ (executeGotoProvider_cacheOk svc st i h)

theorem evict_insert_eq_tail_append {c : GotoCache} {k : String} (v : List RangeInFile)
    (hnd : keysNodup c) (hm : mapGet c k = none) (hfull : MAX_CACHE_SIZE ≤ c.length) :
    mapSet (evictIfFull c) k v = c.tail ++ [(k, v)] := by
  cases c with
  | nil => simp [MAX_CACHE_SIZE] at hfull
  | cons e t =>
    have h1 : evictIfFull (e :: t) = t := by
      unfold evictIfFull
      rw [if_pos hfull]
      exact mapDelete_cons_self hnd
    rw [h1, List.tail_cons]
    refine mapSet_fresh v ?_
    intro x hx
    exact (mapGet_eq_none_iff.mp hm) x (by simp [hx])

/-- C1: the claim says the computed cache key separates requests that differ
only in the file identifier, so a cached sequence for one file is never
returned for another file. The code contradicts this: `gotoInputKey`
interpolates `input.uri.toString` without invoking it, so the key is
independent of the uri. Two requests identical except for the uri produce
the same key, and the second request is answered from the first file's
cache entry with no external call — evaluated here on the concrete pair
a.ts / b.ts. -/
theorem c1_goto_cache_key_omits_uri :
    c1InputA.uri ≠ c1InputB.uri ∧
    gotoInputKey c1InputA = gotoInputKey c1InputB ∧
    (executeGotoProvider svcByUri c1StateAfterA c1InputB).1 =
      [{ filepath := "file:///a.ts", range := default }] ∧
    (executeGotoProvider svcByUri c1StateAfterA c1InputB).2.externalCalls = [c1InputA] := by
  decide

/-- C2: for every sequence of `executeGotoProvider` calls from the initial
empty state the cache holds at most `MAX_CACHE_SIZE` (50) entries; and any
insertion into a full well-formed cache (a miss whose service call succeeds)
evicts exactly the head of the insertion-ordered entry list — the
oldest-inserted entry — and appends the new entry. -/
theorem c2_cache_bounded_fifo :
    (∀ svc inputs,
      (runGotoSeq svc initGotoState inputs).cache.length ≤ MAX_CACHE_SIZE) ∧
    (∀ svc st (i : GotoInput) raws, keysNodup st.cache →
      mapGet st.cache (gotoInputKey i) = none →
      svc i = Except.ok raws →
      MAX_CACHE_SIZE ≤ st.cache.length →
      (executeGotoProvider svc st i).2.cache =
        st.cache.tail ++ [(gotoInputKey i, normalizeResults raws)]) := by
  constructor
  · intro svc inputs
    refine (runGotoSeq_cacheOk svc inputs initGotoState ⟨?_, ?_⟩).1
    · simp [initGotoState, MAX_CACHE_SIZE]
    · simp [initGotoState, keysNodup, cacheKeys]
  · intro svc st i raws hnd hm hs hfull
    rw [executeGotoProvider_miss_ok hm hs]
    exact evict_insert_eq_tail_append _ hnd hm hfull

/-- Witness for C2 at concrete inputs: one call from the empty state stays
within capacity, and inserting into a concrete full 50-entry cache drops
exactly its oldest entry and appends the new one. -/
theorem c2_cache_bounded_fifo_witness :
    (runGotoSeq svcEmpty initGotoState [c2Input]).cache.length ≤ MAX_CACHE_SIZE ∧
    (executeGotoProvider svcEmpty c2FullState c2Input).2.cache =
      c2FullState.cache.tail ++ [(gotoInputKey c2Input, normalizeResults [])] :=
  ⟨c2_cache_bounded_fifo.1 svcEmpty [c2Input],
   c2_cache_bounded_fifo.2 svcEmpty c2FullState c2Input []
     (by show (cacheKeys c2FullState.cache).Nodup; decide) (by decide) rfl (by decide)⟩

/-- C7: resolving the same input twice, when the first resolution was a cache
miss whose external call succeeded, returns the identical result list the
second time, leaves the state unchanged, and logs no second external service
call (the second resolution is a cache hit). -/
theorem c7_second_resolution_is_cache_hit :
    ∀ svc st (i : GotoInput) raws,
      mapGet st.cache (gotoInputKey i) = none →
      svc i = Except.ok raws →
      (executeGotoProvider svc ((executeGotoProvider svc st i).2) i).1 =
        (executeGotoProvider svc st i).1 ∧
      (executeGotoProvider svc ((executeGotoProvider svc st i).2) i).2 =
        (executeGotoProvider svc st i).2 ∧
      (executeGotoProvider svc ((executeGotoProvider svc st i).2) i).2.externalCalls =
        (executeGotoProvider svc st i).2.externalCalls := by
  intro svc st i raws hm hs
  have h1 := executeGotoProvider_miss_ok hm hs
  have hfresh : ∀ e ∈ evictIfFull st.cache, ¬ (e.1 = gotoInputKey i) :=
    mapGet_eq_none_iff.mp (mapGet_none_of_sublist (evictIfFull_sublist st.cache) hm)
  have hget : mapGet ((executeGotoProvider svc st i).2).cache (gotoInputKey i) =
      some (normalizeResults raws) := by
    rw [h1]
    show mapGet (mapSet (evictIfFull st.cache) (gotoInputKey i) (normalizeResults raws))
      (gotoInputKey i) = _
    rw [mapSet_fresh _ hfresh]
    exact mapGet_append_fresh _ (mapGet_eq_none_iff.mpr hfresh)
  have h2 := executeGotoProvider_hit svc hget
  rw [h2, h1]
  exact ⟨rfl, rfl, rfl⟩

theorem StInv_refl (st : CrawlState) : StInv st st :=
  ⟨List.prefix_refl _, id, fun _ _ => rfl, id⟩

theorem StInv_trans {a b c : CrawlState} (h1 : StInv a b) (h2 : StInv b c) : StInv a c := by
  obtain ⟨p1, n1, c1, r1⟩ := h1
  obtain ⟨p2, n2, c2, r2⟩ := h2
  refine ⟨p1.trans p2, fun h => n2 (n1 h), ?_, fun h => r2 (r1 h)⟩
  intro t ht
  rw [c2 t (p1.subset ht), c1 t ht]

theorem addLabels_grows (s : List String) (ns : List SyntaxNode) :
    s <+: addLabels s ns := by
  induction ns generalizing s with
  | nil => exact List.prefix_refl s
  | cons n rest ih =>
    simp only [addLabels, List.foldl_cons]
    refine List.IsPrefix.trans ?_ (ih _)
    split
    · exact List.prefix_refl s
    · exact List.prefix_append s [n.text]

theorem addLabels_nodup (s : List String) (ns : List SyntaxNode) (h : s.Nodup) :
    (addLabels s ns).Nodup := by
  induction ns generalizing s with
  | nil => exact h
  | cons n rest ih =>
    simp only [addLabels, List.foldl_cons]
    refine ih _ ?_
    split
    · exact h
    · next hc =>
      have hmem : n.text ∉ s := by
        intro hmem
        exact hc (List.elem_eq_true_of_mem hmem)
      simp [List.nodup_append, h, hmem]

theorem resolveIdentifiers_tlog (env : CrawlEnv) (rif : RangeInFileMaybeContents)
    (alc : Nat) (ns : List SyntaxNode) (gst : GotoState) (tlog : List String) :
    (resolveIdentifiers env rif alc ns gst tlog).2.2 = tlog ++ ns.map SyntaxNode.text := by
  induction ns generalizing gst tlog with
  | nil => simp [resolveIdentifiers]
  | cons n rest ih =>
    simp only [resolveIdentifiers, List.map_cons]
    rw [ih]
    simp

theorem resolveIdentifiers_length (env : CrawlEnv) (rif : RangeInFileMaybeContents)
    (alc : Nat) (ns : List SyntaxNode) (gst : GotoState) (tlog : List String) :
    (resolveIdentifiers env rif alc ns gst tlog).1.length = ns.length := by
  induction ns generalizing gst tlog with
  | nil => simp [resolveIdentifiers]
  | cons n rest ih =>
    simp only [resolveIdentifiers, List.length_cons]
    rw [ih]

theorem count_append_right_zero {t : String} {l1 l2 : List String} (h : t ∉ l2) :
    (l1 ++ l2).count t = l1.count t := by
  rw [List.count_append, List.count_eq_zero.mpr h, Nat.add_zero]

theorem resultsOkB_append_single {rs : List RangeInFileWithContents}
    {d : RangeInFileWithContents} (h : resultsOkB rs = true)
    (hd : ∀ r ∈ rs,
      (r.filepath == d.filepath && (intersection r.range d.range).isSome) = false) :
    resultsOkB (rs ++ [d]) = true := by
  induction rs with
  | nil => simp [resultsOkB]
  | cons r rest ih =>
    simp only [resultsOkB, Bool.and_eq_true] at h
    simp only [List.cons_append, resultsOkB, List.append_eq, List.all_append,
      Bool.and_eq_true, List.all_cons, List.all_nil, Bool.and_true]
    refine ⟨⟨h.1, ?_⟩, ih h.2 (fun x hx => hd x (by simp [hx]))⟩
    rw [hd r (by simp)]
    rfl

theorem dedupeDefinitions_resultsOk (defs : List (Option RangeInFileWithContents))
    (rs : List RangeInFileWithContents) (h : resultsOkB rs = true) :
    resultsOkB (dedupeDefinitions defs rs) = true := by
  induction defs generalizing rs with
  | nil => exact h
  | cons d rest ih =>
    cases d with
    | none => exact ih rs h
    | some d =>
      simp only [dedupeDefinitions]
      split
      · exact ih rs h
      · next hany =>
        refine ih _ (resultsOkB_append_single h ?_)
        intro r hr
        have hfalse : rs.any
            (fun r => r.filepath == d.filepath && (intersection r.range d.range).isSome) =
            false := by
          simpa using hany
        have := List.any_eq_false.mp hfalse r hr
        simpa using this

theorem stinv_crawlStepState (env : CrawlEnv) (rif : RangeInFileMaybeContents)
    (st : CrawlState) (root : SyntaxNode) (nodes : List SyntaxNode) :
    StInv st (crawlStepState env rif st root nodes) := by
  refine ⟨addLabels_grows _ _, addLabels_nodup _ _, ?_, ?_⟩
  · intro t ht
    show (resolveIdentifiers env rif (jsSplitNlCount root.text)
      (nodes.filter (fun n => !(st.searchedLabels.contains n.text)))
      st.goto st.textLookups).2.2.count t = st.textLookups.count t
    rw [resolveIdentifiers_tlog]
    refine count_append_right_zero ?_
    intro hmem
    obtain ⟨n, hn, hnt⟩ := List.mem_map.mp hmem
    have hfil := (List.mem_filter.mp hn).2
    rw [hnt] at hfil
    have hcon : st.searchedLabels.contains t = false := by simpa using hfil
    have hcon2 : st.searchedLabels.contains t = true := List.elem_eq_true_of_mem ht
    rw [hcon2] at hcon
    exact Bool.noConfusion hcon
  · intro hok
    exact dedupeDefinitions_resultsOk _ _ hok

theorem crawlStep_earlyRet {env : CrawlEnv} {rif : RangeInFileMaybeContents}
    {st st1 : CrawlState} (h : crawlStep env rif st = .earlyRet st1) : st1 = st := by
  unfold crawlStep at h
  cases hast : env.getAst rif.filepath (seedContents env rif) with
  | none =>
    simp only [hast] at h
    injection h with h1
    exact h1.symm
  | some root =>
    simp only [hast] at h
    cases hfti : findTypeIdentifiers root with
    | none => simp only [hfti] at h; exact StepOut.noConfusion h
    | some nodes => simp only [hfti] at h; exact StepOut.noConfusion h

theorem crawlStep_proceed_stinv {env : CrawlEnv} {rif : RangeInFileMaybeContents}
    {st st1 : CrawlState} (h : crawlStep env rif st = .proceed st1) : StInv st st1 := by
  unfold crawlStep at h
  cases hast : env.getAst rif.filepath (seedContents env rif) with
  | none =>
    simp only [hast] at h
    exact StepOut.noConfusion h
  | some root =>
    simp only [hast] at h
    cases hfti : findTypeIdentifiers root with
    | none => simp only [hfti] at h; exact StepOut.noConfusion h
    | some nodes =>
      simp only [hfti] at h
      injection h with h1
      exact h1 ▸ stinv_crawlStepState env rif st root nodes

theorem crawlSeeds_stinv (f : RangeInFileMaybeContents → CrawlState → Option CrawlState)
    (H : ∀ rif st st2, f rif st = some st2 → StInv st st2) :
    ∀ seeds st st2, crawlSeeds f seeds st = some st2 → StInv st st2 := by
  intro seeds
  induction seeds with
  | nil =>
    intro st st2 h
    simp only [crawlSeeds, Option.some.injEq] at h
    exact h ▸ StInv_refl st
  | cons s rest ih =>
    intro st st2 h
    simp only [crawlSeeds] at h
    cases hf : f (toMaybeContents s) st with
    | none => simp only [hf] at h; exact Option.noConfusion h
    | some st1 =>
      simp only [hf] at h
      exact StInv_trans (H _ _ _ hf) (ih _ _ h)

theorem crawlTypes_stinv (env : CrawlEnv) :
    ∀ d rif st st2, crawlTypes env d rif st = some st2 → StInv st st2 := by
  intro d
  induction d with
  | zero =>
    intro rif st st2 h
    simp only [crawlTypes] at h
    cases hcs : crawlStep env rif st with
    | fault => simp only [hcs] at h; exact Option.noConfusion h
    | earlyRet st1 =>
      simp only [hcs, Option.some.injEq] at h
      rw [← h, crawlStep_earlyRet hcs]
      exact StInv_refl st
    | proceed st1 =>
      simp only [hcs, Option.some.injEq] at h
      exact h ▸ crawlStep_proceed_stinv hcs
  | succ d ih =>
    intro rif st st2 h
    simp only [crawlTypes] at h
    cases hcs : crawlStep env rif st with
    | fault => simp only [hcs] at h; exact Option.noConfusion h
    | earlyRet st1 =>
      simp only [hcs, Option.some.injEq] at h
      rw [← h, crawlStep_earlyRet hcs]
      exact StInv_refl st
    | proceed st1 =>
      simp only [hcs] at h
      exact StInv_trans (crawlStep_proceed_stinv hcs)
        (crawlSeeds_stinv (crawlTypes env d) (fun r a b hh => ih r a b hh) _ _ _ h)

/-- Witness for C7 at a concrete input: a fresh state, a service returning
one raw definition. -/
theorem c7_second_resolution_is_cache_hit_witness :
    (executeGotoProvider svcByUri ((executeGotoProvider svcByUri initGotoState c2Input).2)
        c2Input).1 =
      (executeGotoProvider svcByUri initGotoState c2Input).1 ∧
    (executeGotoProvider svcByUri ((executeGotoProvider svcByUri initGotoState c2Input).2)
        c2Input).2 =
      (executeGotoProvider svcByUri initGotoState c2Input).2 ∧
    (executeGotoProvider svcByUri ((executeGotoProvider svcByUri initGotoState c2Input).2)
        c2Input).2.externalCalls =
      (executeGotoProvider svcByUri initGotoState c2Input).2.externalCalls :=
  c7_second_resolution_is_cache_hit svcByUri initGotoState c2Input
    [{ targetUri := some "file:///w.ts", uri := none, targetRange := some default,
       range := none }] (by decide) rfl

/-- C3, counterexample: the claim says an identifier text encountered twice —
even twice in the same seed's extraction — triggers at most one external
lookup. In the code the already-searched filter is applied to the whole
batch before any text is added to the set, so two nodes with the same text
in one seed both survive it: crawling a seed whose tree holds the text Foo
twice issues two definition lookups for Foo (and two external service calls,
since the two positions produce different cache keys), while the
searched-label set receives the single entry Foo. -/
theorem c3_counterexample_two_lookups_same_seed :
    (crawlTypes envDoubleFoo 1 rifDoubleFoo initCrawlState).map
      (fun s => (s.textLookups, s.goto.externalCalls.length, s.searchedLabels)) =
    some (["Foo", "Foo"], 2, ["Foo"]) := by
  decide

/-- C3 (amended): within one crawl, an identifier text that is already in the
Searched-Label Set triggers no further definition lookup (so a text never
triggers lookups from two different seeds); the set only grows, keeping its
entries pairwise distinct, so each text is added at most once. (As stated
the claim is false for two occurrences inside one seed's extraction batch,
see the counterexample.) -/
theorem c3_searched_labels_amended :
    (∀ env depth rif st st2 t, t ∈ st.searchedLabels →
      crawlTypes env depth rif st = some st2 →
      st2.textLookups.count t = st.textLookups.count t) ∧
    (∀ env depth rif st st2, crawlTypes env depth rif st = some st2 →
      st.searchedLabels <+: st2.searchedLabels ∧
      (st.searchedLabels.Nodup → st2.searchedLabels.Nodup)) := by
  constructor
  · intro env depth rif st st2 t ht h
    exact (crawlTypes_stinv env depth rif st st2 h).2.2.1 t ht
  · intro env depth rif st st2 h
    obtain ⟨hp, hn, _, _⟩ := crawlTypes_stinv env depth rif st st2 h
    exact ⟨hp, hn⟩

/-- Witness for the amended C3 on a concrete crawl whose seed state has
already searched Foo. -/
theorem c3_searched_labels_amended_witness :
    c3SeedState.textLookups.count "Foo" = c3SeedState.textLookups.count "Foo" ∧
    (c3SeedState.searchedLabels <+: c3SeedState.searchedLabels ∧
     (c3SeedState.searchedLabels.Nodup → c3SeedState.searchedLabels.Nodup)) :=
  ⟨c3_searched_labels_amended.1 envLeaf 1 rifLeaf c3SeedState c3SeedState "Foo"
      (by decide) (by rfl),
   c3_searched_labels_amended.2 envLeaf 1 rifLeaf c3SeedState c3SeedState (by rfl)⟩

/-- C5: after any crawl invocation that completes, the result set holds no
two entries with the same file and a non-null range intersection (the
deduplication invariant is preserved from any state that satisfies it, in
particular from the empty initial result set); and a candidate whose range
intersects an already-accumulated result in the same file is discarded by
the deduplication loop, so of two intersecting candidates only the
first-inserted is retained. -/
theorem c5_crawl_results_nonoverlapping :
    (∀ env depth rif st st2, resultsOkB st.results = true →
      crawlTypes env depth rif st = some st2 → resultsOkB st2.results = true) ∧
    (∀ (d : RangeInFileWithContents) rest results,
      results.any (fun r => r.filepath == d.filepath &&
        (intersection r.range d.range).isSome) = true →
      dedupeDefinitions (some d :: rest) results = dedupeDefinitions rest results) := by
  constructor
  · intro env depth rif st st2 h hc
    exact (crawlTypes_stinv env depth rif st st2 hc).2.2.2 h
  · intro d rest results hany
    simp [dedupeDefinitions, hany]

/-- Witness for C5: a concrete crawl preserving the empty invariant, and the
spec's concrete scenario — candidates at character ranges 0 to 10 and 5 to 15
of the same file, where only the first-inserted is retained. -/
theorem c5_crawl_results_nonoverlapping_witness :
    resultsOkB initCrawlState.results = true ∧
    dedupeDefinitions [some overlapB] [overlapA] = dedupeDefinitions [] [overlapA] :=
  ⟨c5_crawl_results_nonoverlapping.1 envLeaf 1 rifLeaf initCrawlState initCrawlState
      (by decide) (by rfl),
   c5_crawl_results_nonoverlapping.2 overlapB [] [overlapA] (by decide)⟩

/-- C8: a crawl with depth budget 0 performs only the seed's own extraction
and resolution step and makes no recursive call, and a crawl with positive
depth budget recurses over the snapshot of accumulated results with the
budget decreased exactly by one — so crawling terminates at depth 0. -/
theorem c8_depth_budget_decrements :
    (∀ env rif st, crawlTypes env 0 rif st =
      (match crawlStep env rif st with
       | .fault => none
       | .earlyRet st1 => some st1
       | .proceed st1 => some st1)) ∧
    (∀ env depth rif st st1, crawlStep env rif st = .proceed st1 →
      crawlTypes env (depth + 1) rif st =
        crawlSeeds (crawlTypes env depth) st1.results st1) := by
  constructor
  · intro env rif st
    rfl
  · intro env depth rif st st1 h
    simp only [crawlTypes, h]

/-- Witness for C8 on a concrete environment and seed. -/
theorem c8_depth_budget_decrements_witness :
    crawlTypes envLeaf 0 rifLeaf initCrawlState =
      (match crawlStep envLeaf rifLeaf initCrawlState with
       | .fault => none
       | .earlyRet st1 => some st1
       | .proceed st1 => some st1) ∧
    crawlTypes envLeaf (0 + 1) rifLeaf initCrawlState =
      crawlSeeds (crawlTypes envLeaf 0) initCrawlState.results initCrawlState :=
  ⟨c8_depth_budget_decrements.1 envLeaf rifLeaf initCrawlState,
   c8_depth_budget_decrements.2 envLeaf 0 rifLeaf initCrawlState initCrawlState (by rfl)⟩

/-- C4: the claim says that with a positive cap N, `findChildren` returns at
most the first N matches of the whole traversal. The code violates this:
with cap 1 and a matching root, the recursive call for the child receives
the remaining cap 1 - 1 = 0, and both truthiness tests
(`firstN && firstN <= 0` and `firstN ? ... : undefined`) treat 0 as "no cap",
so the child subtree is traversed uncapped. On a two-node tree whose root
and child both match, `findChildren` with cap 1 returns both nodes (in
pre-order: root before child). -/
theorem c4_findChildren_cap_zero_disables_cap :
    (findChildren capRoot (fun n => some (n.type == "m")) (some 1)).map
      (fun l => l.map SyntaxNode.text) = some ["r", "c"] := by
  decide

/-- C6, counterexample: the claim says an external-service failure is
localized to the single node being processed and the other nodes still
produce their results. For the hover service this is false: with three
call-expression nodes in the path and a hover service failing only for the
middle one, the public entry point returns the empty list — the two
non-failing nodes lose their results (the same run with no failure returns
three snippets). No error surfaces, but localization does not hold. -/
theorem c6_counterexample_hover_failure_discards_all :
    getDefinitionsFromLsp (hoverEnvWith (some 1)) "a.ts" "x\ny\nz" 0 = [] ∧
    (getDefinitionsFromLsp (hoverEnvWith none) "a.ts" "x\ny\nz" 0).length = 3 := by
  exact ⟨by decide, by decide⟩

/-- C6 (amended): a failure of the goto lookup service is localized to that
single lookup — `executeGotoProvider` catches it and returns the empty
result list (recording the attempted call, caching nothing) — and the
crawl's resolution loop yields one definition slot per identifier
regardless of individual failures; a hover (or other) rejection inside the
orchestrator aborts the remaining nodes of that request, but the public
entry point catches it and returns the empty list, so no error surfaces to
its caller. -/
theorem c6_failure_handling_amended :
    (∀ svc st (i : GotoInput), mapGet st.cache (gotoInputKey i) = none →
      svc i = Except.error () →
      executeGotoProvider svc st i =
        ([], { st with externalCalls := st.externalCalls ++ [i] })) ∧
    (∀ env rif alc nodes gst tlog,
      (resolveIdentifiers env rif alc nodes gst tlog).1.length = nodes.length) ∧
    (∀ env f c idx, getDefinitionsFromLspInner env f c idx = Except.error () →
      getDefinitionsFromLsp env f c idx = []) := by
  refine ⟨?_, ?_, ?_⟩
  · intro svc st i hm hs
    exact executeGotoProvider_miss_error hm hs
  · intro env rif alc nodes gst tlog
    exact resolveIdentifiers_length env rif alc nodes gst tlog
  · intro env f c idx h
    simp [getDefinitionsFromLsp, h]

/-- Witness for the amended C6 at concrete inputs: a rejecting lookup yields
the empty result without propagating, a two-identifier resolution yields two
slots, and a run whose hover rejects mid-path yields the empty list from the
entry point. -/
theorem c6_failure_handling_amended_witness :
    executeGotoProvider svcFail initGotoState c2Input =
      ([], { initGotoState with externalCalls := initGotoState.externalCalls ++ [c2Input] }) ∧
    (resolveIdentifiers envDoubleFoo rifDoubleFoo 2 [fooNode1, fooNode2]
      initGotoState []).1.length = [fooNode1, fooNode2].length ∧
    getDefinitionsFromLsp (hoverEnvWith (some 1)) "x.ts" "x\ny\nz" 0 = [] :=
  ⟨c6_failure_handling_amended.1 svcFail initGotoState c2Input (by decide) rfl,
   c6_failure_handling_amended.2.1 envDoubleFoo rifDoubleFoo 2 [fooNode1, fooNode2]
     initGotoState [],
   c6_failure_handling_amended.2.2 (hoverEnvWith (some 1)) "x.ts" "x\ny\nz" 0 rfl⟩

theorem getFunctionInfo_obj {env : LspEnv} {uri : String} {pos : Pos} {v : String}
    (h : env.hover uri pos = Except.ok [[HoverContent.obj v]]) :
    getFunctionInfo env uri pos = Except.ok (jsTrim v) := by
  simp [getFunctionInfo, h]

theorem getDefinitionsForNode_call_near {env : LspEnv} {uri : String}
    {node : SyntaxNode} {cp : Pos} {v : String}
    (htype : node.type = "call_expression" ∨ node.type = "call")
    (hdist : jsAbsSub node.startPosition.row cp.line ≤ MAX_DISTANCE)
    (hh : env.hover uri ⟨node.startPosition.row, node.startPosition.column⟩ =
      Except.ok [[HoverContent.obj v]])
    (htrim : ¬ (jsTrim v = "")) :
    getDefinitionsForNode env uri node cp =
      Except.ok [⟨uri,
        ⟨⟨node.startPosition.row, node.startPosition.column⟩,
         ⟨node.endPosition.row, node.endPosition.column⟩⟩,
        jsTrim v⟩] := by
  have hb : (node.type == "call_expression" || node.type == "call") = true := by
    cases htype with
    | inl h => simp [h]
    | inr h => simp [h]
  unfold getDefinitionsForNode
  rw [if_pos hb, if_pos hdist, getFunctionInfo_obj hh]
  simp only [if_neg htrim]

theorem getDefinitionsForNode_call_far {env : LspEnv} {uri : String}
    {node : SyntaxNode} {cp : Pos}
    (hdist : MAX_DISTANCE < jsAbsSub node.startPosition.row cp.line) :
    getDefinitionsForNode env uri node cp = Except.ok [] := by
  unfold getDefinitionsForNode
  split
  · rw [if_neg (Nat.not_le_of_lt hdist)]
  · rfl

theorem getDefinitionsFromLsp_single_node {env : LspEnv} {f c : String}
    {idx : Nat} {root node : SyntaxNode} {cp : Pos} {ds : List RangeInFileWithContents}
    (hast : env.getAst f c = some root)
    (hpath : env.getTreePathAtCursor root idx = some [node])
    (hcp : cursorPosOf root.text idx = some cp)
    (hnode : getDefinitionsForNode env f node cp = Except.ok ds) :
    getDefinitionsFromLsp env f c idx =
      ds.map (fun r => { filepath := r.filepath, range := r.range,
                         contents := r.contents, score := (0.8 : Rat) }) := by
  simp only [getDefinitionsFromLsp, getDefinitionsFromLspInner, hast, hpath, hcp,
    List.reverse_singleton, processNodes, hnode, List.append_nil]

/-- C9, counterexample: the claim says a call-expression node within 5 lines
of the cursor whose hover service returns a string value yields exactly one
snippet carrying the trimmed string. With the hover value a whitespace-only
string (a string value whose trim is empty), the node 3 lines from the
cursor yields no snippet at all, because the code drops a falsy (empty)
trimmed hover string. -/
theorem c9_counterexample_blank_hover_value :
    (hoverEnvSingle nearCallNode "   ").hover "a.ts" ⟨3, 0⟩ =
      Except.ok [[HoverContent.obj "   "]] ∧
    cursorPosOf "x" 0 = some ⟨0, 0⟩ ∧
    jsAbsSub nearCallNode.startPosition.row 0 ≤ MAX_DISTANCE ∧
    getDefinitionsFromLsp (hoverEnvSingle nearCallNode "   ") "a.ts" "x" 0 = [] := by
  refine ⟨rfl, by decide, by decide, by decide⟩

/-- C9 (amended): for a call-expression node within 5 lines of the cursor
whose hover service returns a string value with a non-empty trim, the
orchestrator yields exactly one snippet carrying that trimmed string with
score 0.8; for a call-expression node more than 5 lines from the cursor it
yields none. -/
theorem c9_nearby_call_hover_amended :
    ∀ (env : LspEnv) (f c : String) (idx : Nat) (root node : SyntaxNode)
      (cp : Pos) (v : String),
      env.getAst f c = some root →
      env.getTreePathAtCursor root idx = some [node] →
      cursorPosOf root.text idx = some cp →
      node.type = "call_expression" →
      env.hover f ⟨node.startPosition.row, node.startPosition.column⟩ =
        Except.ok [[HoverContent.obj v]] →
      (jsAbsSub node.startPosition.row cp.line ≤ MAX_DISTANCE →
        ¬ (jsTrim v = "") →
        getDefinitionsFromLsp env f c idx =
          [⟨f,
            ⟨⟨node.startPosition.row, node.startPosition.column⟩,
             ⟨node.endPosition.row, node.endPosition.column⟩⟩,
            jsTrim v, (0.8 : Rat)⟩]) ∧
      (MAX_DISTANCE < jsAbsSub node.startPosition.row cp.line →
        getDefinitionsFromLsp env f c idx = []) := by
  intro env f c idx root node cp v hast hpath hcp htype hh
  constructor
  · intro hdist htrim
    rw [getDefinitionsFromLsp_single_node hast hpath hcp
      (getDefinitionsForNode_call_near (Or.inl htype) hdist hh htrim)]
    rfl
  · intro hdist
    rw [getDefinitionsFromLsp_single_node hast hpath hcp
      (getDefinitionsForNode_call_far hdist)]
    rfl

/-- Witness for the amended C9: the spec scenario — a node 3 lines away with
hover text "function foo(x: number): void" yields exactly the one snippet
with score 0.8, and a node 10 lines away yields none. -/
theorem c9_nearby_call_hover_amended_witness :
    getDefinitionsFromLsp
        (hoverEnvSingle nearCallNode " function foo(x: number): void ") "a.ts" "x" 0 =
      [⟨"a.ts", ⟨⟨3, 0⟩, ⟨3, 6⟩⟩, jsTrim " function foo(x: number): void ",
        (0.8 : Rat)⟩] ∧
    getDefinitionsFromLsp (hoverEnvSingle farCallNode "sig") "a.ts" "x" 0 = [] :=
  ⟨(c9_nearby_call_hover_amended
      (hoverEnvSingle nearCallNode " function foo(x: number): void ") "a.ts" "x" 0
      (.mk "program" "x" none ⟨0, 0⟩ ⟨0, 1⟩ []) nearCallNode ⟨0, 0⟩
      " function foo(x: number): void " rfl rfl (by decide) rfl rfl).1
      (by decide) (by decide),
   (c9_nearby_call_hover_amended (hoverEnvSingle farCallNode "sig") "a.ts" "x" 0
      (.mk "program" "x" none ⟨0, 0⟩ ⟨0, 1⟩ []) farCallNode ⟨0, 0⟩ "sig"
      rfl rfl (by decide) rfl rfl).2 (by decide)⟩

/-- C10, counterexample: the claim says the type-reference predicate never
faults, in particular not on an identifier node with empty text under a
parse-error parent. On exactly that node the code evaluates
`text[0].toUpperCase()` where `text[0]` is undefined, which throws — the
embedded predicate returns `none` and the whole extraction faults. -/
theorem c10_counterexample_empty_identifier_faults :
    typeRefPred emptyIdNode = none ∧ (findTypeIdentifiers errTree).isNone = true := by
  exact ⟨by decide, by decide⟩

theorem firstCharUpperEq_eq_none_iff (s : String) :
    firstCharUpperEq s = none ↔ s = "" := by
  cases s with
  | mk l =>
    cases l with
    | nil => simp [firstCharUpperEq]
    | cons ch cs =>
      simp only [firstCharUpperEq]
      constructor
      · intro h
        exact Option.noConfusion h
      · intro h
        have hdata := congrArg String.data h
        simp at hdata

/-- C10 (amended): evaluation of the type-reference predicate faults exactly
on the nodes of kind "identifier" with empty text whose immediate parent is
a parse-error node — on every other node it is total. -/
theorem c10_type_ref_pred_totality :
    ∀ n : SyntaxNode, typeRefPred n = none ↔
      (n.type = "identifier" ∧ n.parentType = some "ERROR" ∧ n.text = "") := by
  intro n
  unfold typeRefPred
  by_cases h1 : n.type = "type_identifier"
  · rw [if_pos (by simp [h1])]
    constructor
    · intro h
      exact Option.noConfusion h
    · intro ⟨ht, _, _⟩
      rw [h1] at ht
      exact absurd ht (by decide)
  · rw [if_neg (by simp [h1])]
    by_cases h2 : ((["ERROR"].contains (n.parentType.getD "")) && (n.type == "identifier")) = true
    · rw [if_pos h2]
      rw [firstCharUpperEq_eq_none_iff]
      have hpar : n.parentType = some "ERROR" := by
        have hc := (Bool.and_eq_true _ _ ▸ h2).1
        cases hp : n.parentType with
        | none => rw [hp] at hc; simp at hc
        | some ps =>
          rw [hp] at hc
          simp only [Option.getD_some] at hc
          have : ps = "ERROR" := by simpa [List.contains] using hc
          rw [this]
      have hid : n.type = "identifier" := by
        have hc := (Bool.and_eq_true _ _ ▸ h2).2
        simpa using hc
      simp [hpar, hid]
    · rw [if_neg h2]
      constructor
      · intro h
        exact Option.noConfusion h
      · intro ⟨ht, hp, _⟩
        exfalso
        refine h2 ?_
        rw [ht, hp]
        decide

end ContinueLsp
